import Mathlib

/-!
Verification of the FamilyTreeBuilder CSV → PDF converter
(`familytreebuilder_to_pdf.py`).

The development shallowly embeds the data-processing core of the script:
`normalize_name`, and the event-extraction / month-grouping pipeline of
`parse_input`.  CSV reading and PDF rendering are external collaborators and
are out of scope; a person record is modelled as a structure of the eight
string fields the script reads, and `parse_input` consumes a list of records.

Python exceptions that the script does not catch (the `strptime` call on a
marriage date) abort the whole run; this is modelled by an `Option` result
where `none` stands for the propagated fatal error.
-/

namespace FamilyTree

/-- A person record: the eight named string fields the script accesses on a
CSV row (`First name`, `Last name`, `Gender`, `Birth date`, `Death date`,
`Marriage date`, `Marriage to`, `Married Name`). -/
structure Row where
  firstName : String
  lastName : String
  gender : String
  birthDate : String
  deathDate : String
  marriageDate : String
  marriageTo : String
  marriedName : String
deriving DecidableEq, Repr

/-- Splits a character list at the LAST occurrence of a space: returns
`some (p, s)` with the input equal to `p ++ ' ' :: s` and no space in `s`,
or `none` when the list has no space. -/
def splitLastSpace : List Char → Option (List Char × List Char)
  | [] => none
  | c :: cs =>
    match splitLastSpace cs with
    | some (p, s) => some (c :: p, s)
    | none => if c = ' ' then some ([], cs) else none

/-- Model of Python `s.rsplit(' ', 1)`: a one-element list when `s` has no
space, otherwise the two pieces around the last space. -/
def rsplitSpace1 (s : String) : List String :=
  match splitLastSpace s.data with
  | none => [s]
  | some (p, suf) => [String.mk p, String.mk suf]

/-- Embedding of `normalize_name(row)`: men get `First name + " " + Last name`;
otherwise try the piece of `Marriage to` after its last space, then a
non-empty `Married Name`, then `Last name`. -/
def normalize_name (row : Row) : String :=
  if row.gender = "M" then
    row.firstName ++ " " ++ row.lastName
  else
    let spouse_last_name := rsplitSpace1 row.marriageTo
    if spouse_last_name.length = 2 then
      row.firstName ++ " " ++ (spouse_last_name.getD 1 "")
    else if row.marriedName ≠ "" then
      row.firstName ++ " " ++ row.marriedName
    else
      row.firstName ++ " " ++ row.lastName

/-- The suffix of a string after its last space character: the longest
suffix that contains no space.  Used to state the spec-side description of
the spouse-surname rule. -/
def afterLastSpace (s : String) : String :=
  String.mk ((s.data.reverse.takeWhile (fun c => c ≠ ' ')).reverse)

/-- A parsed calendar date, as produced by `datetime.strptime`. -/
structure Date where
  year : Nat
  month : Nat
  day : Nat
deriving DecidableEq, Repr

/-- Numeric value of a decimal digit character. -/
def digitVal (c : Char) : Nat := c.toNat - 48

/-- The month number of a lower-cased three-letter month abbreviation
(C-locale names, matched case-insensitively by `strptime`). -/
def monthOfAbbrev (s : String) : Option Nat :=
  if s = "jan" then some 1
  else if s = "feb" then some 2
  else if s = "mar" then some 3
  else if s = "apr" then some 4
  else if s = "may" then some 5
  else if s = "jun" then some 6
  else if s = "jul" then some 7
  else if s = "aug" then some 8
  else if s = "sep" then some 9
  else if s = "oct" then some 10
  else if s = "nov" then some 11
  else if s = "dec" then some 12
  else none

/-- Drops a run of whitespace characters from the front of a list. -/
def dropWs : List Char → List Char
  | [] => []
  | c :: cs => if c.isWhitespace then dropWs cs else c :: cs

/-- Consumes at least one whitespace character (a literal space in a
`strptime` format string matches one or more whitespace characters). -/
def skipWs1 : List Char → Option (List Char)
  | [] => none
  | c :: cs => if c.isWhitespace then some (dropWs cs) else none

/-- Consumes a day-of-month for `%d`: one or two decimal digits whose value
lies in 1..31 (the regex `3[01]|[12]\d|0[1-9]|[1-9]` used by `strptime`). -/
def parseDay : List Char → Option (Nat × List Char)
  | c1 :: c2 :: rest =>
    if c1.isDigit ∧ c2.isDigit then
      let v := digitVal c1 * 10 + digitVal c2
      if 1 ≤ v ∧ v ≤ 31 then some (v, rest) else none
    else if c1.isDigit ∧ 1 ≤ digitVal c1 then
      some (digitVal c1, c2 :: rest)
    else none
  | [c1] =>
    if c1.isDigit ∧ 1 ≤ digitVal c1 then some (digitVal c1, []) else none
  | [] => none

/-- Gregorian leap-year test, as used by `datetime`. -/
def isLeapYear (y : Nat) : Bool := y % 4 = 0 ∧ (y % 100 ≠ 0 ∨ y % 400 = 0)

/-- Number of days in a month, as validated by the `datetime` constructor. -/
def daysInMonth (y m : Nat) : Nat :=
  if m = 2 then (if isLeapYear y then 29 else 28)
  else if m = 4 ∨ m = 6 ∨ m = 9 ∨ m = 11 then 30
  else 31

/-- Model of `datetime.datetime.strptime(s, "%b. %d %Y")`: a three-letter
month abbreviation (case-insensitive), a literal period, whitespace, a
1-2 digit day, whitespace, exactly four digits of year, end of input; the
resulting (year, month, day) triple must be a valid calendar date with a
positive year.  Returns `none` where Python raises `ValueError`. -/
def strptime_b_d_Y (s : String) : Option Date :=
  match s.data with
  | c1 :: c2 :: c3 :: '.' :: rest =>
    match monthOfAbbrev (String.mk [c1.toLower, c2.toLower, c3.toLower]) with
    | none => none
    | some m =>
      match skipWs1 rest with
      | none => none
      | some rest1 =>
        match parseDay rest1 with
        | none => none
        | some (d, rest2) =>
          match skipWs1 rest2 with
          | none => none
          | some rest3 =>
            match rest3 with
            | [y1, y2, y3, y4] =>
              if y1.isDigit ∧ y2.isDigit ∧ y3.isDigit ∧ y4.isDigit then
                let y := digitVal y1 * 1000 + digitVal y2 * 100 +
                  digitVal y3 * 10 + digitVal y4
                if 1 ≤ y ∧ d ≤ daysInMonth y m then
                  some { year := y, month := m, day := d }
                else none
              else none
            | _ => none
  | _ => none

/-- An extracted event: a parsed date and a fully resolved reason string. -/
structure Event where
  date : Date
  reason : String
deriving DecidableEq, Repr

/-- The birthday event of one row, if any: a non-empty `Birth date` that
parses yields an event; a parse failure is swallowed by the bare `except`
and yields nothing. -/
def birthdayEvent (row : Row) : Option Event :=
  if row.birthDate ≠ "" then
    match strptime_b_d_Y row.birthDate with
    | some d =>
      some { date := d,
             reason := "Birthday of " ++ normalize_name row ++
               " (born in " ++ toString d.year ++ ")" }
    | none => none
  else none

/-- The anniversary reason string built by the script. -/
def anniversaryReason (row : Row) (d : Date) : String :=
  "Anniversary of " ++ row.firstName ++ " " ++ row.lastName ++ " and " ++
    row.marriageTo ++ " (married in " ++ toString d.year ++ ")"

/-- The anniversary loop of `parse_input`: rows with a non-empty
`Marriage date` and gender `M` each contribute one event; a `strptime`
failure there is uncaught and aborts the run (`none`). -/
def anniversaries : List Row → Option (List Event)
  | [] => some []
  | row :: rest =>
    if row.marriageDate ≠ "" ∧ row.gender = "M" then
      match strptime_b_d_Y row.marriageDate with
      | none => none
      | some d =>
        match anniversaries rest with
        | none => none
        | some evs => some ({ date := d, reason := anniversaryReason row d } :: evs)
    else anniversaries rest

/-- The event-extraction phase of `parse_input`: drop rows with a non-empty
`Death date`, then all birthday events in row order followed by all
anniversary events in row order. -/
def extract_events (rows : List Row) : Option (List Event) :=
  match anniversaries (rows.filter fun r => r.deathDate = "") with
  | none => none
  | some annivs =>
    some ((rows.filter fun r => r.deathDate = "").filterMap birthdayEvent ++ annivs)

/-- Boolean code-point-lexicographic comparison of character lists, the
order Python uses on the `reason` strings inside a sort key tuple. -/
def strLeB : List Char → List Char → Bool
  | [], _ => true
  | _ :: _, [] => false
  | a :: as, b :: bs =>
    if a < b then true else if b < a then false else strLeB as bs

/-- The sort order of the per-month `sorted` call: ascending by the key
tuple `(day-of-month, reason)`. -/
def eventRel (a b : Event) : Prop :=
  a.date.day < b.date.day ∨
    (a.date.day = b.date.day ∧ strLeB a.reason.data b.reason.data = true)

instance : DecidableRel eventRel := fun a b => by
  unfold eventRel; infer_instance

/-- Sorting of one month bucket (Python `sorted` with key
`(date.day, reason)`; a stable sort, and events with equal keys in one
bucket are equal, so any sorted permutation is THE result). -/
def sortMonth (es : List Event) : List Event :=
  List.insertionSort eventRel es

/-- Appends an event to the bucket of key `m`, creating the bucket at the
end on first occurrence — the behaviour of `defaultdict(list)` indexing
followed by `append`, with insertion-ordered keys. -/
def addToBucket (buckets : List (Nat × List Event)) (m : Nat) (e : Event) :
    List (Nat × List Event) :=
  match buckets with
  | [] => [(m, [e])]
  | (k, es) :: rest =>
    if k = m then (k, es ++ [e]) :: rest
    else (k, es) :: addToBucket rest m e

/-- The grouping loop of `parse_input`: scan the extracted events and file
each one under its month number. -/
def groupByMonth (events : List Event) : List (Nat × List Event) :=
  events.foldl (fun b e => addToBucket b e.date.month e) []

/-- Embedding of `parse_input` after CSV reading: filter the dead, extract
birthdays then anniversaries, group by month, sort each month.  `none`
models the uncaught marriage-date parse error aborting the run with no
output. -/
def parse_input (rows : List Row) : Option (List (Nat × List Event)) :=
  match extract_events rows with
  | none => none
  | some evs => some ((groupByMonth evs).map fun p => (p.1, sortMonth p.2))

/-- First-seen order of the values of a list: the enumeration order of the
keys of an insertion-ordered mapping built by one scan. -/
def firstSeen (l : List Nat) : List Nat :=
  l.foldl (fun acc m => if m ∈ acc then acc else acc ++ [m]) []

/-- Contents of the first bucket stored under key `k`, or `[]` when no
bucket carries that key.  Used to characterise the grouping fold. -/
def bucketGet (b : List (Nat × List Event)) (k : Nat) : List Event :=
  match b with
  | [] => []
  | (k', es) :: rest => if k' = k then es else bucketGet rest k

/-- The within-month order the spec asks for, stated independently of the
implementation: ascending by day-of-month, ties broken by comparing the
reason strings lexicographically by code point (the order on `Char`). -/
def eventOrderedSpec (a b : Event) : Prop :=
  a.date.day < b.date.day ∨
    (a.date.day = b.date.day ∧
      (List.Lex (· < ·) a.reason.data b.reason.data ∨ a.reason = b.reason))

/-- Sample record: a married man with a parseable marriage date. -/
def tomRow : Row :=
  { firstName := "Tom", lastName := "Lee", gender := "M", birthDate := "",
    deathDate := "", marriageDate := "Jun. 15 2000", marriageTo := "Ann Lee",
    marriedName := "" }

/-- Sample record: a deceased woman, the spouse named in `tomRow`. -/
def annRow : Row :=
  { firstName := "Ann", lastName := "Lee", gender := "F", birthDate := "",
    deathDate := "Mar. 01 2010", marriageDate := "", marriageTo := "",
    marriedName := "" }

/-- Sample record: deceased, with valid birth and marriage dates. -/
def deadRow : Row :=
  { firstName := "Bob", lastName := "Kay", gender := "M",
    birthDate := "Jan. 02 1950", deathDate := "Feb. 03 2020",
    marriageDate := "Mar. 04 1975", marriageTo := "Sue Kay", marriedName := "" }

end FamilyTree

namespace FamilyTree

theorem splitLastSpace_eq_none : ∀ l : List Char, splitLastSpace l = none ↔ ' ' ∉ l
  | [] => by simp [splitLastSpace]
  | c :: cs => by
    have ih := splitLastSpace_eq_none cs
    cases h : splitLastSpace cs with
    | some ps =>
      have hcs : ' ' ∈ cs := by
        by_contra hn
        rw [ih.mpr hn] at h
        exact Option.noConfusion h
      simp [splitLastSpace, h, hcs]
    | none =>
      by_cases hc : c = ' '
      · subst hc; simp [splitLastSpace, h]
      · simp [splitLastSpace, h, hc, ih.mp h, Ne.symm hc]

theorem splitLastSpace_eq_some :
    ∀ (l p s : List Char), splitLastSpace l = some (p, s) →
      l = p ++ ' ' :: s ∧ ' ' ∉ s
  | [], _, _ => by simp [splitLastSpace]
  | c :: cs, p, s => by
    intro h
    cases hcs : splitLastSpace cs with
    | some ps =>
      obtain ⟨p', s'⟩ := ps
      have ih := splitLastSpace_eq_some cs p' s' hcs
      rw [splitLastSpace, hcs] at h
      obtain ⟨rfl, rfl⟩ : c :: p' = p ∧ s' = s := by
        constructor <;> [exact congrArg Prod.fst (Option.some.inj h);
          exact congrArg Prod.snd (Option.some.inj h)]
      exact ⟨by rw [List.cons_append, ← ih.1], ih.2⟩
    | none =>
      rw [splitLastSpace, hcs] at h
      by_cases hc : c = ' '
      · subst hc
        rw [if_pos rfl] at h
        obtain ⟨rfl, rfl⟩ : ([] : List Char) = p ∧ cs = s := by
          constructor <;> [exact congrArg Prod.fst (Option.some.inj h);
            exact congrArg Prod.snd (Option.some.inj h)]
        exact ⟨rfl, (splitLastSpace_eq_none cs).mp hcs⟩
      · rw [if_neg hc] at h
        exact Option.noConfusion h

theorem takeWhile_all_append (P : Char → Bool) :
    ∀ (xs : List Char) (y : Char) (ys : List Char),
      (∀ x ∈ xs, P x = true) → P y = false →
      (xs ++ y :: ys).takeWhile P = xs
  | [], y, ys => by
    intro _ hy
    simp [List.takeWhile, hy]
  | x :: xs, y, ys => by
    intro hx hy
    have hxx : P x = true := hx x (by simp)
    simp only [List.cons_append, List.takeWhile, hxx]
    exact congrArg (List.cons x)
      (takeWhile_all_append P xs y ys (fun z hz => hx z (by simp [hz])) hy)

theorem afterLastSpace_of_data (str : String) (p s : List Char)
    (hd : str.data = p ++ ' ' :: s) (hs : ' ' ∉ s) :
    afterLastSpace str = String.mk s := by
  unfold afterLastSpace
  rw [hd]
  have hrev : (p ++ ' ' :: s).reverse = s.reverse ++ ' ' :: p.reverse := by
    simp
  rw [hrev, takeWhile_all_append _ s.reverse ' ' p.reverse
    (fun x hx => by
      simp only [decide_eq_true_eq]
      intro hxeq
      exact hs (by simpa [hxeq] using List.mem_reverse.mp hx))
    (by simp), List.reverse_reverse]

/-- C1: for a record whose Gender is not exactly `M`, `normalize_name` uses,
in this precedence order: the piece of `Marriage to` after its last space
when `Marriage to` contains at least one space, else a non-empty
`Married Name`, else `Last name`, each appended to `First name` and a
space. -/
theorem normalize_name_not_male (row : Row) (h : row.gender ≠ "M") :
    (' ' ∈ row.marriageTo.data →
      normalize_name row = row.firstName ++ " " ++ afterLastSpace row.marriageTo) ∧
    (' ' ∉ row.marriageTo.data → row.marriedName ≠ "" →
      normalize_name row = row.firstName ++ " " ++ row.marriedName) ∧
    (' ' ∉ row.marriageTo.data → row.marriedName = "" →
      normalize_name row = row.firstName ++ " " ++ row.lastName) := by
  refine ⟨fun hsp => ?_, fun hsp hmn => ?_, fun hsp hmn => ?_⟩
  · cases hsplit : splitLastSpace row.marriageTo.data with
    | none => exact absurd ((splitLastSpace_eq_none _).mp hsplit) (by simp [hsp])
    | some ps =>
      obtain ⟨p, s⟩ := ps
      obtain ⟨hdata, hnos⟩ := splitLastSpace_eq_some _ p s hsplit
      rw [afterLastSpace_of_data row.marriageTo p s hdata hnos]
      simp [normalize_name, h, rsplitSpace1, hsplit]
  · have hsplit : splitLastSpace row.marriageTo.data = none :=
      (splitLastSpace_eq_none _).mpr hsp
    simp [normalize_name, h, rsplitSpace1, hsplit, hmn]
  · have hsplit : splitLastSpace row.marriageTo.data = none :=
      (splitLastSpace_eq_none _).mpr hsp
    simp [normalize_name, h, rsplitSpace1, hsplit, hmn]

theorem normalize_name_not_male_witness :
    (Row.mk "Jane" "Doe" "F" "" "" "" "Bob Smith" "Xx").gender ≠ "M" ∧
    ' ' ∈ (Row.mk "Jane" "Doe" "F" "" "" "" "Bob Smith" "Xx").marriageTo.data ∧
    normalize_name (Row.mk "Jane" "Doe" "F" "" "" "" "Bob Smith" "Xx") =
      (Row.mk "Jane" "Doe" "F" "" "" "" "Bob Smith" "Xx").firstName ++ " " ++
        afterLastSpace (Row.mk "Jane" "Doe" "F" "" "" "" "Bob Smith" "Xx").marriageTo :=
  ⟨by decide, by decide,
    (normalize_name_not_male (Row.mk "Jane" "Doe" "F" "" "" "" "Bob Smith" "Xx")
      (by decide)).1 (by decide)⟩

/-- C9: for a record whose Gender is exactly `M`, `normalize_name` returns
`First name ++ " " ++ Last name`, and the result does not depend on the
`Marriage to` or `Married Name` fields at all. -/
theorem normalize_name_male (row : Row) (h : row.gender = "M") :
    normalize_name row = row.firstName ++ " " ++ row.lastName ∧
    ∀ mt mn : String,
      normalize_name { row with marriageTo := mt, marriedName := mn } =
        row.firstName ++ " " ++ row.lastName := by
  constructor
  · simp [normalize_name, h]
  · intro mt mn
    simp [normalize_name, h]

theorem normalize_name_male_witness :
    (Row.mk "Tom" "Lee" "M" "" "" "" "Ann Kim" "Zz").gender = "M" ∧
    normalize_name (Row.mk "Tom" "Lee" "M" "" "" "" "Ann Kim" "Zz") =
      (Row.mk "Tom" "Lee" "M" "" "" "" "Ann Kim" "Zz").firstName ++ " " ++
        (Row.mk "Tom" "Lee" "M" "" "" "" "Ann Kim" "Zz").lastName :=
  ⟨by decide,
    (normalize_name_male (Row.mk "Tom" "Lee" "M" "" "" "" "Ann Kim" "Zz") (by decide)).1⟩

theorem splitLastSpace_append_space :
    ∀ l : List Char, splitLastSpace (l ++ [' ']) = some (l, [])
  | [] => by simp [splitLastSpace]
  | c :: cs => by
    rw [List.cons_append, splitLastSpace, splitLastSpace_append_space cs]

theorem string_append_right_empty (s : String) : s ++ "" = s := by
  cases s with
  | mk data =>
    show String.mk (data ++ []) = String.mk data
    rw [List.append_nil]

/-- C10: for a record whose Gender is not `M` and whose `Marriage to` field
ends in a space (so it contains a space, with nothing after the last one),
the spouse-surname rule fires with an empty last piece and the result is
`First name ++ " "`, whatever `Married Name` holds. -/
theorem normalize_name_trailing_space (row : Row) (h : row.gender ≠ "M")
    (h2 : row.marriageTo.data.getLast? = some ' ') :
    normalize_name row = row.firstName ++ " " := by
  have hne : row.marriageTo.data ≠ [] := by
    intro hnil
    rw [hnil] at h2
    exact Option.noConfusion h2
  have hlast : row.marriageTo.data.getLast hne = ' ' := by
    have := List.getLast?_eq_getLast row.marriageTo.data hne
    rw [h2] at this
    exact (Option.some.inj this).symm
  have hdata : row.marriageTo.data = row.marriageTo.data.dropLast ++ [' '] := by
    conv_lhs => rw [← List.dropLast_append_getLast hne]
    rw [hlast]
  have hsplit : splitLastSpace row.marriageTo.data =
      some (row.marriageTo.data.dropLast, []) := by
    conv_lhs => rw [hdata]
    exact splitLastSpace_append_space _
  have : normalize_name row = row.firstName ++ " " ++ String.mk [] := by
    simp [normalize_name, h, rsplitSpace1, hsplit]
  rw [this]
  exact string_append_right_empty _

theorem anniversaries_append : ∀ a b : List Row,
    anniversaries (a ++ b) =
      (anniversaries a).bind fun x => (anniversaries b).map fun y => x ++ y
  | [], b => by
    cases hb : anniversaries b <;> simp [anniversaries, hb]
  | r :: a, b => by
    have ih := anniversaries_append a b
    by_cases hc : r.marriageDate ≠ "" ∧ r.gender = "M"
    · cases hm : strptime_b_d_Y r.marriageDate with
      | none => simp [anniversaries, hc, hm]
      | some d =>
        cases ha : anniversaries a with
        | none => simp [anniversaries, hc, hm, ih, ha]
        | some x =>
          cases hb : anniversaries b with
          | none => simp [anniversaries, hc, hm, ih, ha, hb]
          | some y => simp [anniversaries, hc, hm, ih, ha, hb]
    · simp [anniversaries, hc, ih]

theorem anniversaries_ok_eq : ∀ (l : List Row) (evs : List Event),
    anniversaries l = some evs →
    evs = l.filterMap fun r =>
      if r.marriageDate ≠ "" ∧ r.gender = "M" then
        (strptime_b_d_Y r.marriageDate).map
          (fun d => { date := d, reason := anniversaryReason r d })
      else none
  | [], evs => by
    intro h
    rw [anniversaries] at h
    simp [← Option.some.inj h]
  | r :: l, evs => by
    intro h
    rw [anniversaries] at h
    by_cases hc : r.marriageDate ≠ "" ∧ r.gender = "M"
    · rw [if_pos hc] at h
      cases hm : strptime_b_d_Y r.marriageDate with
      | none => rw [hm] at h; exact Option.noConfusion h
      | some d =>
        rw [hm] at h
        cases hl : anniversaries l with
        | none => rw [hl] at h; exact Option.noConfusion h
        | some evs' =>
          rw [hl] at h
          have ih := anniversaries_ok_eq l evs' hl
          rw [← Option.some.inj h]
          simp [List.filterMap_cons, hc, hm, ← ih]
    · rw [if_neg hc] at h
      have ih := anniversaries_ok_eq l evs h
      simp [List.filterMap_cons, hc, ← ih]

/-- C2: a record with a non-empty Death date contributes no event at all:
inserting such a record anywhere in the input leaves the whole result of
`parse_input` unchanged, even when the record carries parseable Birth and
Marriage dates. -/
theorem dead_record_contributes_nothing (l1 l2 : List Row) (r : Row)
    (h : r.deathDate ≠ "") :
    parse_input (l1 ++ r :: l2) = parse_input (l1 ++ l2) := by
  have hf : (l1 ++ r :: l2).filter (fun r => r.deathDate = "") =
      (l1 ++ l2).filter (fun r => r.deathDate = "") := by
    simp [List.filter_append, List.filter_cons, h]
  unfold parse_input extract_events
  rw [hf]

theorem dead_record_contributes_nothing_witness :
    deadRow.deathDate ≠ "" ∧
    strptime_b_d_Y deadRow.birthDate = some { year := 1950, month := 1, day := 2 } ∧
    strptime_b_d_Y deadRow.marriageDate = some { year := 1975, month := 3, day := 4 } ∧
    parse_input ([] ++ deadRow :: [tomRow]) = parse_input ([] ++ [tomRow]) :=
  ⟨by decide, by decide, by decide,
    dead_record_contributes_nothing [] [tomRow] deadRow (by decide)⟩

/-- C3: a surviving record whose non-empty Birth date fails to parse under
the fixed format contributes no birthday and raises no error: the whole
result of `parse_input` equals the result on the same input with that
record's Birth date blanked out. -/
theorem malformed_birth_date_skipped (l1 l2 : List Row) (r : Row)
    (h1 : r.deathDate = "") (h2 : r.birthDate ≠ "")
    (h3 : strptime_b_d_Y r.birthDate = none) :
    parse_input (l1 ++ r :: l2) =
      parse_input (l1 ++ { r with birthDate := "" } :: l2) := by
  have hb1 : birthdayEvent r = none := by simp [birthdayEvent, h2, h3]
  have hb2 : birthdayEvent { r with birthDate := "" } = none := rfl
  have hf1 : (l1 ++ r :: l2).filter (fun r => r.deathDate = "") =
      l1.filter (fun r => r.deathDate = "") ++ r :: l2.filter (fun r => r.deathDate = "") := by
    simp [List.filter_append, List.filter_cons, h1]
  have hf2 : (l1 ++ { r with birthDate := "" } :: l2).filter (fun r => r.deathDate = "") =
      l1.filter (fun r => r.deathDate = "") ++
        { r with birthDate := "" } :: l2.filter (fun r => r.deathDate = "") := by
    simp [List.filter_append, List.filter_cons, h1]
  have hA : anniversaries ((l1 ++ r :: l2).filter fun r => r.deathDate = "") =
      anniversaries ((l1 ++ { r with birthDate := "" } :: l2).filter fun r => r.deathDate = "") := by
    rw [hf1, hf2, anniversaries_append, anniversaries_append]
    rfl
  have hB : ((l1 ++ r :: l2).filter fun r => r.deathDate = "").filterMap birthdayEvent =
      ((l1 ++ { r with birthDate := "" } :: l2).filter fun r => r.deathDate = "").filterMap
        birthdayEvent := by
    rw [hf1, hf2]
    simp [List.filterMap_append, List.filterMap_cons, hb1, hb2]
  unfold parse_input extract_events
  rw [hA, hB]

theorem malformed_birth_date_skipped_witness :
    (Row.mk "Eve" "Fox" "F" "Feb. 30 1990" "" "" "" "").deathDate = "" ∧
    (Row.mk "Eve" "Fox" "F" "Feb. 30 1990" "" "" "" "").birthDate ≠ "" ∧
    strptime_b_d_Y (Row.mk "Eve" "Fox" "F" "Feb. 30 1990" "" "" "" "").birthDate = none ∧
    parse_input ([] ++ Row.mk "Eve" "Fox" "F" "Feb. 30 1990" "" "" "" "" :: [tomRow]) =
      parse_input ([] ++ { Row.mk "Eve" "Fox" "F" "Feb. 30 1990" "" "" "" "" with
        birthDate := "" } :: [tomRow]) :=
  ⟨by decide, by decide, by decide,
    malformed_birth_date_skipped [] [tomRow] (Row.mk "Eve" "Fox" "F" "Feb. 30 1990" "" "" "" "")
      (by decide) (by decide) (by decide)⟩

/-- C4: a surviving record with Gender `M` and a non-empty Marriage date
that fails to parse aborts the whole run: `parse_input` propagates the
uncaught error (modelled as `none`) and produces no output, wherever the
record sits in the input. -/
theorem malformed_marriage_date_fatal (l1 l2 : List Row) (r : Row)
    (h1 : r.deathDate = "") (h2 : r.gender = "M") (h3 : r.marriageDate ≠ "")
    (h4 : strptime_b_d_Y r.marriageDate = none) :
    parse_input (l1 ++ r :: l2) = none := by
  have hf : (l1 ++ r :: l2).filter (fun r => r.deathDate = "") =
      l1.filter (fun r => r.deathDate = "") ++ r :: l2.filter (fun r => r.deathDate = "") := by
    simp [List.filter_append, List.filter_cons, h1]
  have hr : anniversaries (r :: l2.filter fun r => r.deathDate = "") = none := by
    simp [anniversaries, h2, h3, h4]
  have hA : anniversaries ((l1 ++ r :: l2).filter fun r => r.deathDate = "") = none := by
    rw [hf, anniversaries_append, hr]
    cases anniversaries (l1.filter fun r => r.deathDate = "") <;> simp
  unfold parse_input extract_events
  rw [hA]

theorem malformed_marriage_date_fatal_witness :
    (Row.mk "Sam" "Orr" "M" "" "" "Jun 15 2000" "Ann Orr" "").deathDate = "" ∧
    (Row.mk "Sam" "Orr" "M" "" "" "Jun 15 2000" "Ann Orr" "").gender = "M" ∧
    (Row.mk "Sam" "Orr" "M" "" "" "Jun 15 2000" "Ann Orr" "").marriageDate ≠ "" ∧
    strptime_b_d_Y (Row.mk "Sam" "Orr" "M" "" "" "Jun 15 2000" "Ann Orr" "").marriageDate = none ∧
    parse_input ([tomRow] ++ Row.mk "Sam" "Orr" "M" "" "" "Jun 15 2000" "Ann Orr" "" :: []) = none :=
  ⟨by decide, by decide, by decide, by decide,
    malformed_marriage_date_fatal [tomRow] [] (Row.mk "Sam" "Orr" "M" "" "" "Jun 15 2000" "Ann Orr" "")
      (by decide) (by decide) (by decide) (by decide)⟩

/-- C5: when the anniversary pass succeeds, it emits one event exactly for
each surviving record with a non-empty Marriage date and Gender exactly
`M` — never for any other record — and the reason is exactly
`"Anniversary of {First name} {Last name} and {Marriage to} (married in {year})"`
built from the raw name fields. -/
theorem anniversary_emission (rows : List Row) (evs : List Event)
    (h : anniversaries (rows.filter fun r => r.deathDate = "") = some evs) :
    evs = (rows.filter fun r => r.deathDate = "").filterMap fun r =>
      if r.marriageDate ≠ "" ∧ r.gender = "M" then
        (strptime_b_d_Y r.marriageDate).map fun d =>
          { date := d,
            reason := "Anniversary of " ++ r.firstName ++ " " ++ r.lastName ++
              " and " ++ r.marriageTo ++ " (married in " ++ toString d.year ++ ")" }
      else none :=
  anniversaries_ok_eq _ _ h

theorem anniversary_emission_witness :
    anniversaries ([tomRow, annRow].filter fun r => r.deathDate = "") =
      some [{ date := { year := 2000, month := 6, day := 15 },
              reason := "Anniversary of Tom Lee and Ann Lee (married in 2000)" }] ∧
    [({ date := { year := 2000, month := 6, day := 15 },
        reason := "Anniversary of Tom Lee and Ann Lee (married in 2000)" } : Event)] =
      ([tomRow, annRow].filter fun r => r.deathDate = "").filterMap fun r =>
        if r.marriageDate ≠ "" ∧ r.gender = "M" then
          (strptime_b_d_Y r.marriageDate).map fun d =>
            { date := d,
              reason := "Anniversary of " ++ r.firstName ++ " " ++ r.lastName ++
                " and " ++ r.marriageTo ++ " (married in " ++ toString d.year ++ ")" }
        else none :=
  ⟨by decide, anniversary_emission [tomRow, annRow] _ (by decide)⟩

/-- C8, counterexample: the death filter drops a deceased person's own
record, but it does not keep that person's name out of other records'
event reasons.  Here `annRow` is deceased, yet the single emitted event's
reason contains her full name (via the `Marriage to` field of `tomRow`),
so an emitted Event can reference a deceased person. -/
theorem deceased_reference_counterexample :
    annRow.deathDate ≠ "" ∧
    parse_input [tomRow, annRow] =
      some [(6, [{ date := { year := 2000, month := 6, day := 15 },
                   reason := "Anniversary of Tom Lee and Ann Lee (married in 2000)" }])] ∧
    "Anniversary of Tom Lee and Ann Lee (married in 2000)" =
      "Anniversary of Tom Lee and " ++ (annRow.firstName ++ " " ++ annRow.lastName) ++
        " (married in 2000)" :=
  ⟨by decide, by decide, by decide⟩

/-- C8 as amended: every emitted event originates from a surviving record
(records with a non-empty Death date generate no events), though a deceased
person's name may still appear inside a surviving record's reason string. -/
theorem events_from_surviving_rows (rows : List Row) (evs : List Event)
    (h : extract_events rows = some evs) :
    ∀ e ∈ evs, ∃ r, r ∈ rows ∧ r.deathDate = "" ∧
      (birthdayEvent r = some e ∨
        (r.marriageDate ≠ "" ∧ r.gender = "M" ∧
          ∃ d, strptime_b_d_Y r.marriageDate = some d ∧
            e = { date := d, reason := anniversaryReason r d })) := by
  intro e he
  unfold extract_events at h
  cases ha : anniversaries (rows.filter fun r => r.deathDate = "") with
  | none => rw [ha] at h; exact Option.noConfusion h
  | some annivs =>
    rw [ha] at h
    rw [← Option.some.inj h] at he
    rw [List.mem_append] at he
    rcases he with hb | han
    · obtain ⟨r, hr, hbe⟩ := List.mem_filterMap.mp hb
      have hrf := List.mem_filter.mp hr
      exact ⟨r, hrf.1, by simpa using hrf.2, Or.inl hbe⟩
    · rw [anniversaries_ok_eq _ _ ha] at han
      obtain ⟨r, hr, hfe⟩ := List.mem_filterMap.mp han
      have hrf := List.mem_filter.mp hr
      by_cases hc : r.marriageDate ≠ "" ∧ r.gender = "M"
      · rw [if_pos hc] at hfe
        cases hm : strptime_b_d_Y r.marriageDate with
        | none => rw [hm] at hfe; exact Option.noConfusion hfe
        | some d =>
          rw [hm] at hfe
          exact ⟨r, hrf.1, by simpa using hrf.2,
            Or.inr ⟨hc.1, hc.2, d, hm, (Option.some.inj hfe).symm⟩⟩
      · rw [if_neg hc] at hfe
        exact Option.noConfusion hfe

theorem events_from_surviving_rows_witness :
    extract_events [tomRow, annRow] =
      some [{ date := { year := 2000, month := 6, day := 15 },
              reason := "Anniversary of Tom Lee and Ann Lee (married in 2000)" }] ∧
    (∃ r, r ∈ [tomRow, annRow] ∧ r.deathDate = "" ∧
      (birthdayEvent r =
          some { date := { year := 2000, month := 6, day := 15 },
                 reason := "Anniversary of Tom Lee and Ann Lee (married in 2000)" } ∨
        (r.marriageDate ≠ "" ∧ r.gender = "M" ∧
          ∃ d, strptime_b_d_Y r.marriageDate = some d ∧
            ({ date := { year := 2000, month := 6, day := 15 },
               reason := "Anniversary of Tom Lee and Ann Lee (married in 2000)" } : Event) =
              { date := d, reason := anniversaryReason r d }))) :=
  ⟨by decide,
    events_from_surviving_rows [tomRow, annRow]
      [{ date := { year := 2000, month := 6, day := 15 },
         reason := "Anniversary of Tom Lee and Ann Lee (married in 2000)" }]
      (by decide)
      { date := { year := 2000, month := 6, day := 15 },
        reason := "Anniversary of Tom Lee and Ann Lee (married in 2000)" }
      (by decide)⟩

theorem strLeB_total : ∀ a b : List Char, strLeB a b = true ∨ strLeB b a = true
  | [], _ => Or.inl rfl
  | _ :: _, [] => Or.inr rfl
  | a :: as, b :: bs => by
    rcases lt_trichotomy a b with h | rfl | h
    · left; simp [strLeB, h]
    · rcases strLeB_total as bs with h2 | h2
      · left; simpa [strLeB, lt_irrefl] using h2
      · right; simpa [strLeB, lt_irrefl] using h2
    · right; simp [strLeB, h]

theorem strLeB_trans : ∀ a b c : List Char,
    strLeB a b = true → strLeB b c = true → strLeB a c = true
  | [], _, _ => fun _ _ => rfl
  | _ :: _, [], _ => fun h _ => by simp [strLeB] at h
  | _ :: _, _ :: _, [] => fun _ h => by simp [strLeB] at h
  | a :: as, b :: bs, c :: cs => fun h1 h2 => by
    simp only [strLeB] at h1 h2 ⊢
    rcases lt_trichotomy a b with hab | rfl | hab
    · rcases lt_trichotomy b c with hbc | rfl | hbc
      · rw [if_pos (lt_trans hab hbc)]
      · rw [if_pos hab]
      · rw [if_neg (asymm hbc), if_pos hbc] at h2
        exact absurd h2 (by simp)
    · rw [if_neg (lt_irrefl a), if_neg (lt_irrefl a)] at h1
      rcases lt_trichotomy a c with hac | rfl | hac
      · rw [if_pos hac]
      · rw [if_neg (lt_irrefl a), if_neg (lt_irrefl a)] at h2 ⊢
        exact strLeB_trans as bs cs h1 h2
      · rw [if_neg (asymm hac), if_pos hac] at h2
        exact absurd h2 (by simp)
    · rw [if_neg (asymm hab), if_pos hab] at h1
      exact absurd h1 (by simp)

theorem strLeB_iff : ∀ a b : List Char,
    strLeB a b = true ↔ (List.Lex (· < ·) a b ∨ a = b)
  | [], [] => by simp [strLeB]
  | [], b :: bs => by
    simp only [strLeB, true_iff]
    exact Or.inl List.Lex.nil
  | a :: as, [] => by simp [strLeB]
  | a :: as, b :: bs => by
    have ih := strLeB_iff as bs
    rcases lt_trichotomy a b with h | rfl | h
    · simp only [strLeB, if_pos h, true_iff]
      exact Or.inl (List.Lex.rel h)
    · simp only [strLeB, if_neg (lt_irrefl a)]
      rw [ih]
      constructor
      · rintro (hl | rfl)
        · exact Or.inl (List.Lex.cons hl)
        · exact Or.inr rfl
      · rintro (hl | he)
        · cases hl with
          | cons h2 => exact Or.inl h2
          | rel h2 => exact absurd h2 (lt_irrefl a)
        · injection he with _ h2
          exact Or.inr h2
    · simp only [strLeB, if_neg (asymm h), if_pos h]
      constructor
      · intro hf
        exact absurd hf (by simp)
      · rintro (hl | he)
        · cases hl with
          | cons h2 => exact absurd h (lt_irrefl _)
          | rel h2 => exact absurd h2 (asymm h)
        · injection he with h2 _
          exact absurd (h2 ▸ h) (lt_irrefl _)

theorem eventRel_total : ∀ a b : Event, eventRel a b ∨ eventRel b a := by
  intro a b
  rcases lt_trichotomy a.date.day b.date.day with h | h | h
  · exact Or.inl (Or.inl h)
  · rcases strLeB_total a.reason.data b.reason.data with h2 | h2
    · exact Or.inl (Or.inr ⟨h, h2⟩)
    · exact Or.inr (Or.inr ⟨h.symm, h2⟩)
  · exact Or.inr (Or.inl h)

theorem eventRel_trans : ∀ a b c : Event, eventRel a b → eventRel b c → eventRel a c := by
  intro a b c h1 h2
  rcases h1 with h1 | ⟨h1e, h1s⟩
  · rcases h2 with h2 | ⟨h2e, _⟩
    · exact Or.inl (lt_trans h1 h2)
    · exact Or.inl (h2e ▸ h1)
  · rcases h2 with h2 | ⟨h2e, h2s⟩
    · exact Or.inl (by rw [h1e]; exact h2)
    · exact Or.inr ⟨h1e.trans h2e, strLeB_trans _ _ _ h1s h2s⟩

theorem eventRel_imp_spec : ∀ a b : Event, eventRel a b → eventOrderedSpec a b := by
  intro a b h
  rcases h with h | ⟨he, hs⟩
  · exact Or.inl h
  · refine Or.inr ⟨he, ?_⟩
    rcases (strLeB_iff _ _).mp hs with hl | hd
    · exact Or.inl hl
    · exact Or.inr (congrArg String.mk hd)

/-- C6: in the output of `parse_input`, every month bucket is sorted
ascending by the pair (day-of-month, reason), where reasons are compared as
plain text, lexicographically by code point; so in one month, day 3 comes
before day 5 whatever the input order, and equal-day events are ordered by
their reason strings. -/
theorem month_buckets_sorted (rows : List Row) (out : List (Nat × List Event))
    (h : parse_input rows = some out) :
    ∀ p ∈ out, List.Pairwise eventOrderedSpec p.2 := by
  intro p hp
  unfold parse_input at h
  cases he : extract_events rows with
  | none => rw [he] at h; exact Option.noConfusion h
  | some evs =>
    rw [he] at h
    rw [← Option.some.inj h] at hp
    obtain ⟨q, hq, rfl⟩ := List.mem_map.mp hp
    haveI : IsTotal Event eventRel := ⟨eventRel_total⟩
    haveI : IsTrans Event eventRel := ⟨fun a b c => eventRel_trans a b c⟩
    have hs : List.Sorted eventRel (sortMonth q.2) :=
      List.sorted_insertionSort eventRel q.2
    exact List.Pairwise.imp (fun hab => eventRel_imp_spec _ _ hab) hs

theorem month_buckets_sorted_witness :
    parse_input [Row.mk "Al" "Aa" "M" "Apr. 05 1980" "" "" "" "",
        Row.mk "Cy" "Bb" "M" "Apr. 03 1981" "" "" "" ""] =
      some [(4,
        [{ date := { year := 1981, month := 4, day := 3 },
           reason := "Birthday of Cy Bb (born in 1981)" },
         { date := { year := 1980, month := 4, day := 5 },
           reason := "Birthday of Al Aa (born in 1980)" }])] ∧
    List.Pairwise eventOrderedSpec
      [{ date := { year := 1981, month := 4, day := 3 },
         reason := "Birthday of Cy Bb (born in 1981)" },
       { date := { year := 1980, month := 4, day := 5 },
         reason := "Birthday of Al Aa (born in 1980)" }] :=
  ⟨by decide,
    month_buckets_sorted
      [Row.mk "Al" "Aa" "M" "Apr. 05 1980" "" "" "" "",
        Row.mk "Cy" "Bb" "M" "Apr. 03 1981" "" "" "" ""]
      [(4,
        [{ date := { year := 1981, month := 4, day := 3 },
           reason := "Birthday of Cy Bb (born in 1981)" },
         { date := { year := 1980, month := 4, day := 5 },
           reason := "Birthday of Al Aa (born in 1980)" }])]
      (by decide)
      (4,
        [{ date := { year := 1981, month := 4, day := 3 },
           reason := "Birthday of Cy Bb (born in 1981)" },
         { date := { year := 1980, month := 4, day := 5 },
           reason := "Birthday of Al Aa (born in 1980)" }])
      (by decide)⟩

theorem addToBucket_map_fst : ∀ (b : List (Nat × List Event)) (m : Nat) (e : Event),
    (addToBucket b m e).map Prod.fst =
      if m ∈ b.map Prod.fst then b.map Prod.fst else b.map Prod.fst ++ [m]
  | [], m, e => by simp [addToBucket]
  | (k, es) :: rest, m, e => by
    by_cases hk : k = m
    · subst hk
      simp [addToBucket]
    · rw [addToBucket, if_neg hk]
      simp only [List.map_cons]
      rw [addToBucket_map_fst rest m e]
      by_cases hm : m ∈ rest.map Prod.fst
      · simp [hm, Ne.symm hk]
      · simp [hm, Ne.symm hk]

theorem groupFold_map_fst : ∀ (evs : List Event) (b : List (Nat × List Event)),
    (List.foldl (fun bk e => addToBucket bk e.date.month e) b evs).map Prod.fst =
      List.foldl (fun acc m => if m ∈ acc then acc else acc ++ [m])
        (b.map Prod.fst) (evs.map fun e => e.date.month)
  | [], _ => rfl
  | e :: evs, b => by
    simp only [List.foldl_cons, List.map_cons]
    rw [groupFold_map_fst evs _, addToBucket_map_fst]

theorem addToBucket_months : ∀ (b : List (Nat × List Event)) (m : Nat) (e : Event),
    e.date.month = m →
    (∀ p ∈ b, ∀ x ∈ p.2, x.date.month = p.1) →
    ∀ p ∈ addToBucket b m e, ∀ x ∈ p.2, x.date.month = p.1
  | [], m, e => by
    intro he _ p hp x hx
    simp [addToBucket] at hp
    subst hp
    simp at hx
    subst hx
    exact he
  | (k, es) :: rest, m, e => by
    intro he hb p hp x hx
    by_cases hk : k = m
    · rw [addToBucket, if_pos hk] at hp
      rcases List.mem_cons.mp hp with hp | hp
      · subst hp
        rcases List.mem_append.mp hx with hx | hx
        · exact hb (k, es) (List.mem_cons_self _ _) x hx
        · rw [List.mem_singleton.mp hx]
          exact he.trans hk.symm
      · exact hb p (List.mem_cons_of_mem _ hp) x hx
    · rw [addToBucket, if_neg hk] at hp
      rcases List.mem_cons.mp hp with hp | hp
      · subst hp
        exact hb (k, es) (List.mem_cons_self _ _) x hx
      · exact addToBucket_months rest m e he
          (fun q hq => hb q (List.mem_cons_of_mem _ hq)) p hp x hx

theorem groupFold_months : ∀ (evs : List Event) (b : List (Nat × List Event)),
    (∀ p ∈ b, ∀ x ∈ p.2, x.date.month = p.1) →
    ∀ p ∈ List.foldl (fun bk e => addToBucket bk e.date.month e) b evs,
      ∀ x ∈ p.2, x.date.month = p.1
  | [], _ => fun hb => hb
  | e :: evs, b => fun hb => by
    simp only [List.foldl_cons]
    exact groupFold_months evs _ (addToBucket_months b e.date.month e rfl hb)

theorem bucketGet_addToBucket : ∀ (b : List (Nat × List Event)) (m : Nat) (e : Event)
    (k : Nat), bucketGet (addToBucket b m e) k =
      if k = m then bucketGet b k ++ [e] else bucketGet b k
  | [], m, e, k => by
    by_cases hk : k = m
    · subst hk; simp [addToBucket, bucketGet]
    · simp [addToBucket, bucketGet, hk, Ne.symm hk]
  | (k', es) :: rest, m, e, k => by
    by_cases hk' : k' = m
    · subst hk'
      by_cases hk : k' = k
      · subst hk; simp [addToBucket, bucketGet]
      · simp [addToBucket, bucketGet, hk, Ne.symm hk]
    · rw [addToBucket, if_neg hk']
      by_cases hk : k' = k
      · subst hk
        simp [bucketGet, hk']
      · simp only [bucketGet, if_neg hk]
        exact bucketGet_addToBucket rest m e k

theorem bucketGet_groupFold : ∀ (evs : List Event) (b : List (Nat × List Event))
    (k : Nat), bucketGet (List.foldl (fun bk e => addToBucket bk e.date.month e) b evs) k =
      bucketGet b k ++ evs.filter (fun e => e.date.month = k)
  | [], _, _ => by simp
  | e :: evs, b, k => by
    simp only [List.foldl_cons, List.filter_cons]
    rw [bucketGet_groupFold evs _ k, bucketGet_addToBucket]
    by_cases hm : e.date.month = k
    · simp [hm]
    · simp [hm, Ne.symm hm]

theorem firstSeenAux_nodup : ∀ (l acc : List Nat), acc.Nodup →
    (List.foldl (fun acc m => if m ∈ acc then acc else acc ++ [m]) acc l).Nodup
  | [], _ => fun h => h
  | m :: l, acc => fun h => by
    simp only [List.foldl_cons]
    by_cases hm : m ∈ acc
    · rw [if_pos hm]
      exact firstSeenAux_nodup l acc h
    · rw [if_neg hm]
      exact firstSeenAux_nodup l _ (by simp [List.nodup_append, h, hm])

theorem eq_bucketGet_of_nodup : ∀ b : List (Nat × List Event),
    (b.map Prod.fst).Nodup → ∀ p ∈ b, p.2 = bucketGet b p.1
  | [] => by intro _ p hp; simp at hp
  | (k', es) :: rest => by
    intro hn p hp
    rw [List.map_cons] at hn
    obtain ⟨hknotin, hn2⟩ := List.nodup_cons.mp hn
    rcases List.mem_cons.mp hp with hp | hp
    · subst hp
      simp [bucketGet]
    · have hk : k' ≠ p.1 := by
        intro he
        exact hknotin (he ▸ List.mem_map.mpr ⟨p, hp, rfl⟩)
      rw [bucketGet, if_neg hk]
      exact eq_bucketGet_of_nodup rest hn2 p hp

theorem bucketGet_mem : ∀ (b : List (Nat × List Event)) (k : Nat),
    bucketGet b k ≠ [] → ∃ q, q ∈ b ∧ q.1 = k ∧ q.2 = bucketGet b k
  | [], k => by intro h; simp [bucketGet] at h
  | (k', es) :: rest, k => by
    intro h
    by_cases hk : k' = k
    · subst hk
      exact ⟨(k', es), List.mem_cons_self _ _, rfl, by simp [bucketGet]⟩
    · obtain ⟨q, hq, h1, h2⟩ := bucketGet_mem rest k (by simpa [bucketGet, hk] using h)
      exact ⟨q, List.mem_cons_of_mem _ hq, h1, by simpa [bucketGet, hk] using h2⟩

theorem groupByMonth_nodup_keys (evs : List Event) :
    ((groupByMonth evs).map Prod.fst).Nodup := by
  unfold groupByMonth
  rw [groupFold_map_fst]
  exact firstSeenAux_nodup _ _ (by simp)

theorem groupByMonth_content (evs : List Event) :
    ∀ q ∈ groupByMonth evs, q.2 = evs.filter fun e => e.date.month = q.1 := by
  intro q hq
  rw [eq_bucketGet_of_nodup _ (groupByMonth_nodup_keys evs) q hq]
  unfold groupByMonth
  rw [bucketGet_groupFold]
  simp [bucketGet]

/-- C7: the mapping produced by `parse_input` lists its month keys in the
order each month is first seen while scanning the extracted-events list —
all birthday events in row order followed by all anniversary events in row
order — not in calendar order; and every extracted event appears in
exactly the bucket keyed by the month number of its date: buckets hold no
foreign-month events, each bucket is a permutation of precisely the
extracted events of its month (its contents get re-sorted), and every
extracted event is found in a bucket keyed by its own month. -/
theorem month_bucket_structure (rows : List Row) (out : List (Nat × List Event))
    (evs : List Event) (h1 : parse_input rows = some out)
    (h2 : extract_events rows = some evs) :
    (∃ annivs, anniversaries (rows.filter fun r => r.deathDate = "") = some annivs ∧
      evs = (rows.filter fun r => r.deathDate = "").filterMap birthdayEvent ++ annivs) ∧
    out.map Prod.fst = firstSeen (evs.map fun e => e.date.month) ∧
    (∀ p ∈ out, ∀ x ∈ p.2, x.date.month = p.1) ∧
    (∀ p ∈ out, p.2.Perm (evs.filter fun e => e.date.month = p.1)) ∧
    ∀ e ∈ evs, ∃ p, p ∈ out ∧ p.1 = e.date.month ∧ e ∈ p.2 := by
  unfold parse_input at h1
  rw [h2] at h1
  have hout : out = (groupByMonth evs).map fun p => (p.1, sortMonth p.2) :=
    (Option.some.inj h1).symm
  refine ⟨?_, ?_, ?_, ?_, ?_⟩
  · unfold extract_events at h2
    cases ha : anniversaries (rows.filter fun r => r.deathDate = "") with
    | none => rw [ha] at h2; exact Option.noConfusion h2
    | some annivs =>
      rw [ha] at h2
      exact ⟨annivs, rfl, (Option.some.inj h2).symm⟩
  · rw [hout]
    have hmm : ((groupByMonth evs).map fun p => (p.1, sortMonth p.2)).map Prod.fst =
        (groupByMonth evs).map Prod.fst := by
      rw [List.map_map]; rfl
    rw [hmm]
    exact groupFold_map_fst evs []
  · intro p hp x hx
    rw [hout] at hp
    obtain ⟨q, hq, rfl⟩ := List.mem_map.mp hp
    have hqm : ∀ y ∈ q.2, y.date.month = q.1 :=
      groupFold_months evs [] (by intro p hp; simp at hp) q hq
    have hxq : x ∈ q.2 := (List.perm_insertionSort eventRel q.2).mem_iff.mp hx
    exact hqm x hxq
  · intro p hp
    rw [hout] at hp
    obtain ⟨q, hq, rfl⟩ := List.mem_map.mp hp
    show (sortMonth q.2).Perm (evs.filter fun e => e.date.month = q.1)
    rw [← groupByMonth_content evs q hq]
    exact List.perm_insertionSort eventRel q.2
  · intro e he
    have hfm : e ∈ evs.filter (fun x => x.date.month = e.date.month) :=
      List.mem_filter.mpr ⟨he, by simp⟩
    have hne : bucketGet (groupByMonth evs) e.date.month ≠ [] := by
      unfold groupByMonth
      rw [bucketGet_groupFold]
      intro hnil
      rw [show bucketGet [] e.date.month = [] from rfl, List.nil_append] at hnil
      rw [hnil] at hfm
      simp at hfm
    obtain ⟨q, hq, hk, _⟩ := bucketGet_mem _ _ hne
    have h2q : e ∈ q.2 := by
      rw [groupByMonth_content evs q hq, hk]
      exact hfm
    refine ⟨(q.1, sortMonth q.2), ?_, hk, ?_⟩
    · rw [hout]
      exact List.mem_map.mpr ⟨q, hq, rfl⟩
    · exact (List.perm_insertionSort eventRel q.2).mem_iff.mpr h2q

theorem month_bucket_structure_witness :
    parse_input [Row.mk "Al" "Aa" "F" "Dec. 25 1990" "" "" "" "",
        Row.mk "Cy" "Bb" "M" "Apr. 03 1980" "" "" "" "", tomRow] =
      some [(12, [{ date := { year := 1990, month := 12, day := 25 },
                    reason := "Birthday of Al Aa (born in 1990)" }]),
        (4, [{ date := { year := 1980, month := 4, day := 3 },
               reason := "Birthday of Cy Bb (born in 1980)" }]),
        (6, [{ date := { year := 2000, month := 6, day := 15 },
               reason := "Anniversary of Tom Lee and Ann Lee (married in 2000)" }])] ∧
    extract_events [Row.mk "Al" "Aa" "F" "Dec. 25 1990" "" "" "" "",
        Row.mk "Cy" "Bb" "M" "Apr. 03 1980" "" "" "" "", tomRow] =
      some [{ date := { year := 1990, month := 12, day := 25 },
              reason := "Birthday of Al Aa (born in 1990)" },
        { date := { year := 1980, month := 4, day := 3 },
          reason := "Birthday of Cy Bb (born in 1980)" },
        { date := { year := 2000, month := 6, day := 15 },
          reason := "Anniversary of Tom Lee and Ann Lee (married in 2000)" }] ∧
    [12, 4, 6] = firstSeen
      (([{ date := { year := 1990, month := 12, day := 25 },
           reason := "Birthday of Al Aa (born in 1990)" },
         { date := { year := 1980, month := 4, day := 3 },
           reason := "Birthday of Cy Bb (born in 1980)" },
         { date := { year := 2000, month := 6, day := 15 },
           reason := "Anniversary of Tom Lee and Ann Lee (married in 2000)" }] : List Event).map
        fun e => e.date.month) ∧
    (∃ p, p ∈ [(12, [{ date := { year := 1990, month := 12, day := 25 },
                       reason := "Birthday of Al Aa (born in 1990)" }]),
          (4, [{ date := { year := 1980, month := 4, day := 3 },
                 reason := "Birthday of Cy Bb (born in 1980)" }]),
          (6, [{ date := { year := 2000, month := 6, day := 15 },
                 reason := "Anniversary of Tom Lee and Ann Lee (married in 2000)" }])] ∧
      p.1 = 12 ∧
      ({ date := { year := 1990, month := 12, day := 25 },
         reason := "Birthday of Al Aa (born in 1990)" } : Event) ∈ p.2) := by
  have h := month_bucket_structure
    [Row.mk "Al" "Aa" "F" "Dec. 25 1990" "" "" "" "",
      Row.mk "Cy" "Bb" "M" "Apr. 03 1980" "" "" "" "", tomRow]
    [(12, [{ date := { year := 1990, month := 12, day := 25 },
             reason := "Birthday of Al Aa (born in 1990)" }]),
      (4, [{ date := { year := 1980, month := 4, day := 3 },
             reason := "Birthday of Cy Bb (born in 1980)" }]),
      (6, [{ date := { year := 2000, month := 6, day := 15 },
             reason := "Anniversary of Tom Lee and Ann Lee (married in 2000)" }])]
    [{ date := { year := 1990, month := 12, day := 25 },
       reason := "Birthday of Al Aa (born in 1990)" },
      { date := { year := 1980, month := 4, day := 3 },
        reason := "Birthday of Cy Bb (born in 1980)" },
      { date := { year := 2000, month := 6, day := 15 },
        reason := "Anniversary of Tom Lee and Ann Lee (married in 2000)" }]
    (by decide) (by decide)
  exact ⟨by decide, by decide, h.2.1,
    h.2.2.2.2 { date := { year := 1990, month := 12, day := 25 },
                reason := "Birthday of Al Aa (born in 1990)" } (by decide)⟩

theorem normalize_name_trailing_space_witness :
    (Row.mk "Jane" "Doe" "F" "" "" "" "Jane " "Jones").gender ≠ "M" ∧
    (Row.mk "Jane" "Doe" "F" "" "" "" "Jane " "Jones").marriageTo.data.getLast? = some ' ' ∧
    (Row.mk "Jane" "Doe" "F" "" "" "" "Jane " "Jones").marriedName ≠ "" ∧
    normalize_name (Row.mk "Jane" "Doe" "F" "" "" "" "Jane " "Jones") =
      (Row.mk "Jane" "Doe" "F" "" "" "" "Jane " "Jones").firstName ++ " " :=
  ⟨by decide, by decide, by decide,
    normalize_name_trailing_space (Row.mk "Jane" "Doe" "F" "" "" "" "Jane " "Jones")
      (by decide) (by decide)⟩

end FamilyTree
